import Mathlib

/-!
Verification of the LP-Solver pipeline (`src/app.py`).

The program collects a two-variable linear program from the user, validates
it, converts it to the calling convention of an external LP routine
(`scipy.optimize.linprog`), and renders the final value together with a
deduplicated iteration trace.  The external solver itself is opaque; here it
is modelled as an arbitrary function from the call arguments to a result
record, so every theorem quantifying over `Solver` holds whatever the solver
does.  Numeric values are modelled as rationals: the program only negates and
compares them, operations that are exact on floats (the one float-specific
behaviour, the signed zero, gets its own refined model `PyFloat` below).
-/

namespace LPSolver

/-- The relation selector of a constraint row: `"<="`, `">="`, `"="`. -/
inductive Rel
  | le
  | ge
  | eq
deriving DecidableEq, Repr

/-- One user-entered constraint row (`constraints_data` entries):
`{"x": val_x, "y": val_y, "rel": rel, "rhs": rhs}`. -/
structure Constraint where
  cx : ℚ
  cy : ℚ
  rel : Rel
  rhs : ℚ
deriving DecidableEq, Repr

/-- The objective sense selector (`mode`): `"Maximize"` or `"Minimize"`. -/
inductive Mode
  | Maximize
  | Minimize
deriving DecidableEq, Repr

/-- The caller-supplied problem: objective sense, the two objective
coefficients `c1`, `c2`, and the constraint rows. -/
structure Problem where
  mode : Mode
  c1 : ℚ
  c2 : ℚ
  constraints : List Constraint
deriving DecidableEq, Repr

/-- The two validation errors issued before the solver is called. -/
inductive ValidationError
  | EmptyObjective
  | NoValidConstraints
deriving DecidableEq, Repr

/-- Output of the constraint filtering/routing loop (`app.py` lines 101-117):
the inequality rows `A_ub`/`b_ub`, the equality rows `A_eq`/`b_eq`, and the
`valid_constraints` counter. -/
structure Routed where
  A_ub : List (ℚ × ℚ)
  b_ub : List ℚ
  A_eq : List (ℚ × ℚ)
  b_eq : List ℚ
  validCount : ℕ
deriving DecidableEq, Repr

/-- The filtering/routing loop of `app.py` lines 105-117: skip a row whose
two coefficients are both zero; route `<=` unchanged to the inequality set,
`>=` negated (coefficients and right-hand side) to the inequality set, and
`=` unchanged to the equality set. -/
def routeConstraints : List Constraint → Routed
  | [] => ⟨[], [], [], [], 0⟩
  | con :: rest =>
    let r := routeConstraints rest
    if con.cx = 0 ∧ con.cy = 0 then r
    else
      match con.rel with
      | Rel.le => ⟨(con.cx, con.cy) :: r.A_ub, con.rhs :: r.b_ub, r.A_eq, r.b_eq, r.validCount + 1⟩
      | Rel.ge => ⟨(-con.cx, -con.cy) :: r.A_ub, -con.rhs :: r.b_ub, r.A_eq, r.b_eq, r.validCount + 1⟩
      | Rel.eq => ⟨r.A_ub, r.b_ub, (con.cx, con.cy) :: r.A_eq, con.rhs :: r.b_eq, r.validCount + 1⟩

/-- The canonical form handed to the solver call: the (possibly sign-flipped)
objective `c_scipy` and the routed constraint matrices. -/
structure StandardProblem where
  c_scipy : ℚ × ℚ
  A_ub : List (ℚ × ℚ)
  b_ub : List ℚ
  A_eq : List (ℚ × ℚ)
  b_eq : List ℚ
deriving DecidableEq, Repr

/-- The validation-and-transformation stage (`app.py` lines 95-121): reject an
all-zero objective; flip the objective sign for `Maximize`; run the routing
loop; reject when no valid constraint remains. -/
def transform (p : Problem) : Except ValidationError StandardProblem :=
  if p.c1 = 0 ∧ p.c2 = 0 then Except.error ValidationError.EmptyObjective
  else
    let cs := if p.mode = Mode.Maximize then (-p.c1, -p.c2) else (p.c1, p.c2)
    let r := routeConstraints p.constraints
    if r.validCount = 0 then Except.error ValidationError.NoValidConstraints
    else Except.ok ⟨cs, r.A_ub, r.b_ub, r.A_eq, r.b_eq⟩

/-- The argument record of the `linprog` call (`app.py` lines 129-133): each
matrix argument is `none` (Python `None`) when the corresponding list is
empty, `some` of the list otherwise. -/
structure LinprogArgs where
  c : ℚ × ℚ
  A_ub : Option (List (ℚ × ℚ))
  b_ub : Option (List ℚ)
  A_eq : Option (List (ℚ × ℚ))
  b_eq : Option (List ℚ)
deriving DecidableEq, Repr

/-- Assembles the `linprog` arguments from the standard problem, with the
`np.array(...) if len(...) > 0 else None` conversion of lines 129-132. -/
def toArgs (st : StandardProblem) : LinprogArgs :=
  ⟨st.c_scipy,
   if st.A_ub.length > 0 then some st.A_ub else none,
   if st.b_ub.length > 0 then some st.b_ub else none,
   if st.A_eq.length > 0 then some st.A_eq else none,
   if st.b_eq.length > 0 then some st.b_eq else none⟩

/-- One iteration-log entry `{"Z": res.fun, "X": res.x[0], "Y": res.x[1]}`
recorded by the callback (line 125). -/
structure Vertex where
  z : ℚ
  x : ℚ
  y : ℚ
deriving DecidableEq, Repr

/-- What the external solver call returns: the success flag, the final
objective value `res.fun`, the final point `res.x`, and the iteration log
accumulated through the callback. -/
structure LinprogResult where
  success : Bool
  fval : ℚ
  xv : ℚ
  yv : ℚ
  logs : List Vertex
deriving DecidableEq, Repr

/-- The external solver, opaque to this program: any function from the call
arguments to a result record. -/
def Solver : Type := LinprogArgs → LinprogResult

/-- Negation of the objective value of one trace entry
(`iter_df["Z"] = -iter_df["Z"]`, line 158). -/
def negateZ (v : Vertex) : Vertex := ⟨-v.z, v.x, v.y⟩

/-- Worker for `dropDuplicates`: keep an entry only if an equal entry has not
been kept before. -/
def dropDuplicatesAux (seen : List Vertex) : List Vertex → List Vertex
  | [] => []
  | v :: rest =>
    if v ∈ seen then dropDuplicatesAux seen rest
    else v :: dropDuplicatesAux (v :: seen) rest

/-- Models `pandas.DataFrame.drop_duplicates()` (line 160) with its default
`keep="first"` semantics: scan in order, keep a row exactly when no equal row
occurred earlier. -/
def dropDuplicates (t : List Vertex) : List Vertex := dropDuplicatesAux [] t

/-- The trace-cleaning step of lines 158-160: negate every objective value
when the sense is `Maximize`, then drop duplicate rows. -/
def cleanTrace (mode : Mode) (t : List Vertex) : List Vertex :=
  dropDuplicates (if mode = Mode.Maximize then t.map negateZ else t)

/-- One displayed trace row; `bold` is the `is_final` presentation mark put on
by `bold_last_row` (lines 163-166). -/
structure TraceRow where
  z : ℚ
  x : ℚ
  y : ℚ
  bold : Bool
deriving DecidableEq, Repr

/-- Applies `bold_last_row` to a cleaned trace: the row whose index equals
`len(iter_df) - 1` is marked. -/
def markRows (cleaned : List Vertex) : List TraceRow :=
  cleaned.enum.map (fun p => ⟨p.2.z, p.2.x, p.2.y, decide (p.1 = cleaned.length - 1)⟩)

/-- The iteration-table rendering of lines 154-175: when the iteration log is
non-empty, clean it and mark the last row; when it is empty (the 0-step edge
case), display a single unmarked row carrying the final value and point. -/
def renderIterations (mode : Mode) (logs : List Vertex) (finalZ xv yv : ℚ) : List TraceRow :=
  if logs.isEmpty then [⟨finalZ, xv, yv, false⟩]
  else markRows (cleanTrace mode logs)

/-- Outcome of one click of the solve button. -/
inductive PipelineResult
  | vError (e : ValidationError)
  | solverFailure
  | success (finalZ xv yv : ℚ) (rows : List TraceRow)
deriving DecidableEq, Repr

/-- The whole solve pipeline of lines 93-175 for a given external solver:
validate and transform, call the solver, restore the sign of the final value
for `Maximize`, normalize a zero, and render the iteration table. -/
def runPipeline (solver : Solver) (p : Problem) : PipelineResult :=
  match transform p with
  | Except.error e => PipelineResult.vError e
  | Except.ok st =>
    let res := solver (toArgs st)
    if res.success then
      let rawZ := if p.mode = Mode.Maximize then -res.fval else res.fval
      let finalZ := if rawZ = 0 then (0 : ℚ) else rawZ
      PipelineResult.success finalZ res.xv res.yv
        (renderIterations p.mode res.logs finalZ res.xv res.yv)
    else PipelineResult.solverFailure

/-- A constant solver used only to instantiate solver-polymorphic theorems on
concrete inputs. -/
def constSolver : Solver := fun _ => ⟨true, 5, 1, 2, [⟨5, 1, 2⟩]⟩

/-- A constraint row survives the zero-coefficient filter
(`con["x"] == 0.0 and con["y"] == 0.0` at line 106, negated). -/
def nonzeroRow (c : Constraint) : Bool := decide (¬(c.cx = 0 ∧ c.cy = 0))

/-- Whether a constraint row's relation is `"="`. -/
def isEqRel (c : Constraint) : Bool := decide (c.rel = Rel.eq)

/-- The first-occurrence description of row deduplication: keep the head,
delete every later copy of it, recurse.  This is the statement form of
"preserve the first occurrence of each tuple and the original order". -/
def keepFirst : List Vertex → List Vertex
  | [] => []
  | v :: rest => v :: keepFirst (rest.filter (fun w => decide (w ≠ v)))
termination_by t => t.length
decreasing_by
  simp only [List.length_cons]
  exact Nat.lt_succ_of_le (List.length_filter_le _ _)

/-- Signed-zero float model for the negative-zero fix: a rational magnitude
plus a flag marking the value `-0.0` (meaningful only at magnitude zero).
Lines 136-139 only negate a float and compare it with `0.0`, and both
operations are exact, so this model is faithful there. -/
structure PyFloat where
  val : ℚ
  negZeroBit : Bool
deriving DecidableEq, Repr

/-- Python float equality `==`: compares numeric values, so `-0.0 == 0.0`. -/
def fpEq (a b : PyFloat) : Bool := decide (a.val = b.val)

/-- Python float negation: negates the value and, at magnitude zero, flips
the sign of the zero (`-0.0` from `0.0` and back). -/
def pyNeg (a : PyFloat) : PyFloat := ⟨-a.val, decide (a.val = 0) && !a.negZeroBit⟩

/-- The float `0.0`. -/
def posZeroF : PyFloat := ⟨0, false⟩

/-- The float `-0.0`. -/
def negZeroF : PyFloat := ⟨0, true⟩

/-- The sign restoration of line 136,
`final_z = -res.fun if mode == "Maximize" else res.fun`, on the signed-zero
float model. -/
def rawFinalZ (mode : Mode) (fval : PyFloat) : PyFloat :=
  if mode = Mode.Maximize then pyNeg fval else fval

/-- The negative-zero fix of lines 138-139:
`if final_z == 0.0: final_z = 0.0`. -/
def fixNegZero (z : PyFloat) : PyFloat := if fpEq z posZeroF then posZeroF else z

/-- The final objective value as reported, on the signed-zero float model. -/
def finalZFP (mode : Mode) (fval : PyFloat) : PyFloat := fixNegZero (rawFinalZ mode fval)

/-- A solver whose callback log is empty (the 0-iteration case), used to
instantiate the zero-iteration theorems on concrete inputs. -/
def emptyLogSolver : Solver := fun _ => ⟨true, 5, 1, 2, []⟩

theorem route_skip_zero (cons : List Constraint) :
    routeConstraints cons = routeConstraints (cons.filter nonzeroRow) := by
  induction cons with
  | nil => rfl
  | cons con rest ih =>
    by_cases hz : con.cx = 0 ∧ con.cy = 0
    · simp [routeConstraints, hz, nonzeroRow, List.filter_cons, ih]
    · simp [routeConstraints, hz, nonzeroRow, List.filter_cons, ih]

theorem route_validCount (cons : List Constraint) :
    (routeConstraints cons).validCount = (cons.filter nonzeroRow).length := by
  induction cons with
  | nil => rfl
  | cons con rest ih =>
    by_cases hz : con.cx = 0 ∧ con.cy = 0
    · simp [routeConstraints, hz, nonzeroRow, List.filter_cons, ih]
    · cases hrel : con.rel <;>
        simp [routeConstraints, hz, hrel, nonzeroRow, List.filter_cons, ih]

/-- C1: the routing loop keeps `<=` rows unchanged in the inequality set,
negates `>=` rows into the inequality set, and keeps `=` rows unchanged in
the equality set. -/
theorem transformer_routes_by_relation (cons : List Constraint) :
    (routeConstraints cons).A_ub
        = (cons.filter (fun c => nonzeroRow c && !isEqRel c)).map
            (fun c => if c.rel = Rel.ge then (-c.cx, -c.cy) else (c.cx, c.cy))
  ∧ (routeConstraints cons).b_ub
        = (cons.filter (fun c => nonzeroRow c && !isEqRel c)).map
            (fun c => if c.rel = Rel.ge then -c.rhs else c.rhs)
  ∧ (routeConstraints cons).A_eq
        = (cons.filter (fun c => nonzeroRow c && isEqRel c)).map (fun c => (c.cx, c.cy))
  ∧ (routeConstraints cons).b_eq
        = (cons.filter (fun c => nonzeroRow c && isEqRel c)).map (fun c => c.rhs) := by
  induction cons with
  | nil => exact ⟨rfl, rfl, rfl, rfl⟩
  | cons con rest ih =>
    obtain ⟨h1, h2, h3, h4⟩ := ih
    by_cases hz : con.cx = 0 ∧ con.cy = 0
    · simp [routeConstraints, hz, nonzeroRow, isEqRel, List.filter_cons, h1, h2, h3, h4]
    · have hz' := not_and_or.mp hz
      cases hrel : con.rel <;>
        simp [routeConstraints, hz, hz', hrel, nonzeroRow, isEqRel, List.filter_cons,
          h1, h2, h3, h4]


/-- C2: an all-zero objective is rejected with `EmptyObjective` whatever the
constraints and whatever the solver (the result does not depend on the
solver, which is therefore never consulted). -/
theorem empty_objective_rejected (solver : Solver) (p : Problem)
    (h1 : p.c1 = 0) (h2 : p.c2 = 0) :
    runPipeline solver p = PipelineResult.vError ValidationError.EmptyObjective := by
  simp [runPipeline, transform, h1, h2]

theorem empty_objective_rejected_witness :
    (0 : ℚ) = 0
  ∧ runPipeline constSolver ⟨Mode.Maximize, 0, 0, [⟨1, 1, Rel.le, 4⟩]⟩
      = PipelineResult.vError ValidationError.EmptyObjective :=
  ⟨rfl, empty_objective_rejected constSolver ⟨Mode.Maximize, 0, 0, [⟨1, 1, Rel.le, 4⟩]⟩ rfl rfl⟩

/-- C3: with a nonzero objective, zero-coefficient rows are excluded from the
routing (routing a list equals routing its filtered sublist), and when every
row has zero coefficients the pipeline rejects with `NoValidConstraints`
whatever the solver. -/
theorem zero_rows_filtered_and_rejected (solver : Solver) (p : Problem)
    (hobj : ¬(p.c1 = 0 ∧ p.c2 = 0)) :
    routeConstraints p.constraints = routeConstraints (p.constraints.filter nonzeroRow)
  ∧ ((∀ con ∈ p.constraints, con.cx = 0 ∧ con.cy = 0) →
      runPipeline solver p = PipelineResult.vError ValidationError.NoValidConstraints) := by
  refine ⟨route_skip_zero p.constraints, fun hall => ?_⟩
  have hfil : p.constraints.filter nonzeroRow = [] := by
    rw [List.filter_eq_nil_iff]
    intro con hcon
    simp [nonzeroRow, (hall con hcon).1, (hall con hcon).2]
  have hcount : (routeConstraints p.constraints).validCount = 0 := by
    rw [route_validCount, hfil]; rfl
  simp [runPipeline, transform, hobj, hcount]

theorem zero_rows_filtered_and_rejected_witness :
    ¬((1 : ℚ) = 0 ∧ (0 : ℚ) = 0)
  ∧ (routeConstraints [⟨0, 0, Rel.le, 5⟩]
        = routeConstraints (List.filter nonzeroRow [⟨0, 0, Rel.le, 5⟩])
      ∧ ((∀ con ∈ [(⟨0, 0, Rel.le, 5⟩ : Constraint)], con.cx = 0 ∧ con.cy = 0) →
          runPipeline constSolver ⟨Mode.Maximize, 1, 0, [⟨0, 0, Rel.le, 5⟩]⟩
            = PipelineResult.vError ValidationError.NoValidConstraints)) :=
  ⟨by decide,
   zero_rows_filtered_and_rejected constSolver ⟨Mode.Maximize, 1, 0, [⟨0, 0, Rel.le, 5⟩]⟩
     (by decide)⟩

theorem transform_max_min (c1 c2 : ℚ) (cons : List Constraint) :
    transform ⟨Mode.Maximize, c1, c2, cons⟩ = transform ⟨Mode.Minimize, -c1, -c2, cons⟩ := by
  simp [transform, neg_eq_zero]

/-- C4: a `Maximize` solve and the `Minimize` solve of the negated objective
over the same constraints hand the solver identical arguments, hence return
the same final vertex and exactly negated final objective values. -/
theorem sign_duality (solver : Solver) (c1 c2 : ℚ) (cons : List Constraint)
    (z xv yv : ℚ) (rows : List TraceRow)
    (h : runPipeline solver ⟨Mode.Maximize, c1, c2, cons⟩
        = PipelineResult.success z xv yv rows) :
    ∃ rows2, runPipeline solver ⟨Mode.Minimize, -c1, -c2, cons⟩
        = PipelineResult.success (-z) xv yv rows2 := by
  have hT := transform_max_min c1 c2 cons
  unfold runPipeline at h ⊢
  rw [← hT]
  cases ht : transform ⟨Mode.Maximize, c1, c2, cons⟩ with
  | error e => rw [ht] at h; simp at h
  | ok st =>
    rw [ht] at h
    simp only at h ⊢
    by_cases hs : (solver (toArgs st)).success = true
    · simp only [hs, if_true] at h ⊢
      simp only [PipelineResult.success.injEq] at h
      obtain ⟨hz, hx, hy, -⟩ := h
      subst hz hx hy
      have hzz : (if (solver (toArgs st)).fval = 0 then (0 : ℚ) else (solver (toArgs st)).fval)
          = -(if -(solver (toArgs st)).fval = 0 then (0 : ℚ)
              else -(solver (toArgs st)).fval) := by
        by_cases hf : (solver (toArgs st)).fval = 0 <;> simp [hf]
      simp only [if_neg (show ¬(Mode.Minimize = Mode.Maximize) by simp)]
      rw [hzz]
      exact ⟨_, rfl⟩
    · simp only [hs, if_false] at h
      simp at h

theorem sign_duality_witness :
    runPipeline constSolver ⟨Mode.Maximize, 1, 1, [⟨1, 0, Rel.le, 4⟩]⟩
      = PipelineResult.success (-5) 1 2 [⟨-5, 1, 2, true⟩]
  ∧ ∃ rows2, runPipeline constSolver ⟨Mode.Minimize, -1, -1, [⟨1, 0, Rel.le, 4⟩]⟩
      = PipelineResult.success (-(-5)) 1 2 rows2 :=
  ⟨by decide,
   sign_duality constSolver 1 1 [⟨1, 0, Rel.le, 4⟩] (-5) 1 2 [⟨-5, 1, 2, true⟩] (by decide)⟩


theorem negateZ_injective : Function.Injective negateZ := by
  intro a b hab
  cases a; cases b
  simp only [negateZ, Vertex.mk.injEq, neg_inj] at hab
  simp [Vertex.mk.injEq, hab.1, hab.2.1, hab.2.2]

theorem dropDuplicatesAux_map_negateZ (t : List Vertex) :
    ∀ seen, dropDuplicatesAux (seen.map negateZ) (t.map negateZ)
      = (dropDuplicatesAux seen t).map negateZ := by
  induction t with
  | nil => intro seen; rfl
  | cons v rest ih =>
    intro seen
    by_cases hv : v ∈ seen
    · simp [dropDuplicatesAux, hv, List.mem_map_of_injective negateZ_injective, ih]
    · simp only [List.map_cons, dropDuplicatesAux,
        List.mem_map_of_injective negateZ_injective, hv, if_neg, not_false_iff]
      rw [← List.map_cons, ih (v :: seen)]

/-- C5: for the `Maximize` sense the trace cleaning negates every objective
value first and only then deduplicates; since the negation is injective this
coincides with deduplicating first and negating afterwards. -/
theorem maximize_negates_before_dedup (t : List Vertex) :
    cleanTrace Mode.Maximize t = dropDuplicates (t.map negateZ)
  ∧ cleanTrace Mode.Maximize t = (dropDuplicates t).map negateZ := by
  constructor
  · simp [cleanTrace]
  · have h := dropDuplicatesAux_map_negateZ t []
    simpa [cleanTrace, dropDuplicates] using h

theorem mem_dropDuplicatesAux (t : List Vertex) :
    ∀ seen v, v ∈ dropDuplicatesAux seen t ↔ v ∈ t ∧ v ∉ seen := by
  induction t with
  | nil => intro seen v; simp [dropDuplicatesAux]
  | cons w rest ih =>
    intro seen v
    by_cases hw : w ∈ seen
    · simp only [dropDuplicatesAux, if_pos hw, ih, List.mem_cons]
      constructor
      · rintro ⟨hv, hns⟩; exact ⟨Or.inr hv, hns⟩
      · rintro ⟨hv | hv, hns⟩
        · exact absurd (hv ▸ hw) hns
        · exact ⟨hv, hns⟩
    · simp only [dropDuplicatesAux, if_neg hw, List.mem_cons, ih, not_or]
      constructor
      · rintro (rfl | ⟨hv, _, hvs⟩)
        · exact ⟨Or.inl rfl, hw⟩
        · exact ⟨Or.inr hv, hvs⟩
      · rintro ⟨hv | hv, hns⟩
        · exact Or.inl hv
        · by_cases hvw : v = w
          · exact Or.inl hvw
          · exact Or.inr ⟨hv, hvw, hns⟩

theorem dropDuplicatesAux_sublist (t : List Vertex) :
    ∀ seen, (dropDuplicatesAux seen t).Sublist t := by
  induction t with
  | nil => intro seen; simp [dropDuplicatesAux]
  | cons w rest ih =>
    intro seen
    by_cases hw : w ∈ seen
    · simp only [dropDuplicatesAux, if_pos hw]
      exact (ih seen).cons w
    · simp only [dropDuplicatesAux, if_neg hw]
      exact (ih (w :: seen)).cons₂ w

theorem dropDuplicatesAux_nodup (t : List Vertex) :
    ∀ seen, (dropDuplicatesAux seen t).Nodup := by
  induction t with
  | nil => intro seen; simp [dropDuplicatesAux]
  | cons w rest ih =>
    intro seen
    by_cases hw : w ∈ seen
    · simpa [dropDuplicatesAux, hw] using ih seen
    · simp only [dropDuplicatesAux, if_neg hw]
      refine List.nodup_cons.mpr ⟨fun hmem => ?_, ih (w :: seen)⟩
      exact ((mem_dropDuplicatesAux rest (w :: seen) w).mp hmem).2 (List.mem_cons_self w seen)

theorem dropDuplicatesAux_eq_keepFirst (t : List Vertex) :
    ∀ seen, dropDuplicatesAux seen t
      = keepFirst (t.filter (fun w => decide (w ∉ seen))) := by
  induction t with
  | nil => intro seen; simp [dropDuplicatesAux, keepFirst]
  | cons v rest ih =>
    intro seen
    by_cases hv : v ∈ seen
    · simp only [dropDuplicatesAux, if_pos hv, List.filter_cons]
      rw [if_neg (by simpa using hv)]
      exact ih seen
    · simp only [dropDuplicatesAux, if_neg hv, List.filter_cons]
      rw [if_pos (by simpa using hv)]
      rw [keepFirst, List.filter_filter]
      congr 1
      rw [ih (v :: seen)]
      congr 1
      apply List.filter_congr
      intro a _
      by_cases h1 : a = v <;> by_cases h2 : a ∈ seen <;> simp [h1, h2]


/-- C6: deduplication keeps exactly the first occurrence of each row in the
original order: it equals the first-occurrence recursion `keepFirst`, is a
sublist of its input (order preserved), has no duplicates left, and loses no
row value. -/
theorem dedup_keeps_first_occurrences (t : List Vertex) :
    dropDuplicates t = keepFirst t
  ∧ (dropDuplicates t).Sublist t
  ∧ (dropDuplicates t).Nodup
  ∧ ∀ v, v ∈ dropDuplicates t ↔ v ∈ t := by
  refine ⟨?_, dropDuplicatesAux_sublist t [], dropDuplicatesAux_nodup t [], fun v => ?_⟩
  · have h := dropDuplicatesAux_eq_keepFirst t []
    simpa [dropDuplicates] using h
  · have h := mem_dropDuplicatesAux t [] v
    simpa [dropDuplicates] using h

theorem dropDuplicatesAux_of_nodup (t : List Vertex) :
    ∀ seen, t.Nodup → (∀ v ∈ t, v ∉ seen) → dropDuplicatesAux seen t = t := by
  induction t with
  | nil => intro seen _ _; rfl
  | cons w rest ih =>
    intro seen hnd hdis
    have hw : w ∉ seen := hdis w (List.mem_cons_self w rest)
    simp only [dropDuplicatesAux, if_neg hw]
    congr 1
    refine ih (w :: seen) (List.nodup_cons.mp hnd).2 fun v hv => ?_
    simp only [List.mem_cons, not_or]
    exact ⟨fun he => (List.nodup_cons.mp hnd).1 (he ▸ hv), hdis v (List.mem_cons_of_mem _ hv)⟩

/-- C7 counterexample: applying the clean operation of lines 158-160 twice
with sense `Maximize` negates the objective values twice and so differs from
applying it once, already on the one-entry trace `[(1, 0, 0)]`. -/
theorem clean_twice_maximize_differs :
    cleanTrace Mode.Maximize (cleanTrace Mode.Maximize [⟨1, 0, 0⟩])
      ≠ cleanTrace Mode.Maximize [⟨1, 0, 0⟩] := by decide

/-- C7 (amended): the deduplication step itself is idempotent, and the full
clean operation is idempotent for the sense `Minimize`, where no sign flip is
applied. -/
theorem dedup_idempotent (t : List Vertex) :
    dropDuplicates (dropDuplicates t) = dropDuplicates t
  ∧ cleanTrace Mode.Minimize (cleanTrace Mode.Minimize t) = cleanTrace Mode.Minimize t := by
  have hd : dropDuplicates (dropDuplicates t) = dropDuplicates t :=
    dropDuplicatesAux_of_nodup (dropDuplicates t) [] (dropDuplicatesAux_nodup t [])
      (by simp)
  exact ⟨hd, by simpa [cleanTrace] using hd⟩

/-- C8: a final objective value that float-equals `-0.0` is reported as the
positive zero `0.0`. -/
theorem negative_zero_normalized (mode : Mode) (fval : PyFloat)
    (h : fpEq (rawFinalZ mode fval) negZeroF = true) :
    finalZFP mode fval = posZeroF := by
  have hv : (rawFinalZ mode fval).val = 0 := by simpa [fpEq, negZeroF] using h
  simp [finalZFP, fixNegZero, fpEq, posZeroF, hv]

theorem negative_zero_normalized_witness :
    fpEq (rawFinalZ Mode.Maximize posZeroF) negZeroF = true
  ∧ finalZFP Mode.Maximize posZeroF = posZeroF :=
  ⟨by decide, negative_zero_normalized Mode.Maximize posZeroF (by decide)⟩

/-- C9 counterexample: in the 0-iteration case the pipeline returns exactly
one row carrying the final value and vertex, but that row is displayed
without the final/bold mark (`bold_last_row` only runs in the non-empty
branch), so it is not marked `is_final=true`. -/
theorem zero_iteration_row_not_marked :
    runPipeline emptyLogSolver ⟨Mode.Minimize, 1, 1, [⟨1, 0, Rel.le, 4⟩]⟩
      = PipelineResult.success 5 1 2 [⟨5, 1, 2, false⟩]
  ∧ runPipeline emptyLogSolver ⟨Mode.Minimize, 1, 1, [⟨1, 0, Rel.le, 4⟩]⟩
      ≠ PipelineResult.success 5 1 2 [⟨5, 1, 2, true⟩] := by decide

/-- C9 (amended): when the solver succeeds with an empty iteration log, the
pipeline returns a trace of exactly one entry carrying the final objective
value and vertex — not an empty trace and not an error — though that entry
carries no final/bold mark. -/
theorem zero_iteration_single_row (solver : Solver) (p : Problem) (st : StandardProblem)
    (ht : transform p = Except.ok st)
    (hs : (solver (toArgs st)).success = true)
    (hl : (solver (toArgs st)).logs = []) :
    ∃ z, runPipeline solver p
        = PipelineResult.success z (solver (toArgs st)).xv (solver (toArgs st)).yv
            [⟨z, (solver (toArgs st)).xv, (solver (toArgs st)).yv, false⟩] := by
  unfold runPipeline
  rw [ht]
  simp only [hs, if_true, hl, renderIterations, List.isEmpty_nil]
  exact ⟨_, rfl⟩

theorem zero_iteration_single_row_witness :
    transform ⟨Mode.Minimize, 1, 1, [⟨1, 0, Rel.le, 4⟩]⟩
      = Except.ok ⟨(1, 1), [(1, 0)], [4], [], []⟩
  ∧ (emptyLogSolver (toArgs ⟨(1, 1), [(1, 0)], [4], [], []⟩)).success = true
  ∧ (emptyLogSolver (toArgs ⟨(1, 1), [(1, 0)], [4], [], []⟩)).logs = []
  ∧ ∃ z, runPipeline emptyLogSolver ⟨Mode.Minimize, 1, 1, [⟨1, 0, Rel.le, 4⟩]⟩
      = PipelineResult.success z
          (emptyLogSolver (toArgs ⟨(1, 1), [(1, 0)], [4], [], []⟩)).xv
          (emptyLogSolver (toArgs ⟨(1, 1), [(1, 0)], [4], [], []⟩)).yv
          [⟨z, (emptyLogSolver (toArgs ⟨(1, 1), [(1, 0)], [4], [], []⟩)).xv,
              (emptyLogSolver (toArgs ⟨(1, 1), [(1, 0)], [4], [], []⟩)).yv, false⟩] :=
  ⟨by rfl, by decide, by rfl,
   zero_iteration_single_row emptyLogSolver ⟨Mode.Minimize, 1, 1, [⟨1, 0, Rel.le, 4⟩]⟩
     ⟨(1, 1), [(1, 0)], [4], [], []⟩ (by rfl) (by decide) (by rfl)⟩

/-- C10: in the solver call built from a transformed problem, a matrix
argument is absent (`none`) exactly when the corresponding constraint set is
empty, and an empty matrix (`some []`) is never passed. -/
theorem empty_sets_passed_as_none (p : Problem) (st : StandardProblem)
    (_h : transform p = Except.ok st) :
    ((toArgs st).A_ub = none ↔ st.A_ub = [])
  ∧ ((toArgs st).b_ub = none ↔ st.b_ub = [])
  ∧ ((toArgs st).A_eq = none ↔ st.A_eq = [])
  ∧ ((toArgs st).b_eq = none ↔ st.b_eq = [])
  ∧ (toArgs st).A_ub ≠ some []
  ∧ (toArgs st).A_eq ≠ some [] := by
  obtain ⟨c, aub, bub, aeq, beq⟩ := st
  cases aub <;> cases bub <;> cases aeq <;> cases beq <;> simp [toArgs]

theorem empty_sets_passed_as_none_witness :
    transform ⟨Mode.Minimize, 1, 1, [⟨1, 1, Rel.eq, 4⟩]⟩
      = Except.ok ⟨(1, 1), [], [], [(1, 1)], [4]⟩
  ∧ (toArgs ⟨(1, 1), [], [], [(1, 1)], [4]⟩).A_ub = none
  ∧ (toArgs ⟨(1, 1), [], [], [(1, 1)], [4]⟩).A_eq ≠ some [] := by
  have h := empty_sets_passed_as_none ⟨Mode.Minimize, 1, 1, [⟨1, 1, Rel.eq, 4⟩]⟩
      ⟨(1, 1), [], [], [(1, 1)], [4]⟩ (by rfl)
  exact ⟨by rfl, h.1.mpr rfl, h.2.2.2.2.2⟩

end LPSolver
